import Mathlib

/-!
Verification development for the resource-cache core of the repository
(`lib/cache`): the store variants (`store.go`), the per-kind collection
machinery (`collection.go`), the certificate-authority collection
(`cert_authority.go`) and the users facade (`users.go`).

Go code is embedded shallowly: stateful stores become explicit state
passing over pure Lean values, Go errors become an explicit `Err` sum
type carried in `Except`, and the `SortCache` container together with
the backend key helpers (which live outside the sampled files) are
modelled from the specification, as marked on each such definition.
-/

namespace TeleportCache

/-- Error model for the `trace` package error kinds used by the cache core:
`trace.NotFound`, `trace.BadParameter`, `trace.CompareFailed`, plus a tag for
the "unsupported authority" condition tested by
`types.IsUnsupportedAuthorityErr`, and a catch-all. -/
inductive Err where
  | notFound (msg : String)
  | badParameter (msg : String)
  | compareFailed (msg : String)
  | unsupportedAuthority (msg : String)
  | other (msg : String)
deriving DecidableEq

/-- Embeds `trace.IsNotFound`. -/
def Err.isNotFound : Err → Bool
  | .notFound _ => true
  | _ => false

/-- Embeds `types.IsUnsupportedAuthorityErr`. -/
def Err.isUnsupportedAuthority : Err → Bool
  | .unsupportedAuthority _ => true
  | _ => false

/-- Predicate form: the error is a `BadParameter` (the spec's BadInput). -/
def Err.isBadParameter : Err → Bool
  | .badParameter _ => true
  | _ => false

/-! ## Singleton store (`store.go`, `singletonStore[T]`)

The state of `singletonStore[T]` is its atomic pointer, embedded as
`Option T` (`none` = nil pointer). Pointer identity in the compare-and-swap
is approximated by value identity, which coincides with it in any
sequential execution (the pointer loaded is the pointer compared). -/

/-- Embeds `singletonStore.clear`: store nil, return nil error. -/
def singletonClear (T : Type) (_ : Option T) : Option T × Except Err Unit :=
  (none, .ok ())

/-- Embeds `singletonStore.put`: `old := s.t.Load()` followed by
`s.t.CompareAndSwap(old, &t)`. The first argument is the pointer observed by
the `Load`, the second the pointer the store holds at the moment of the
`CompareAndSwap`; in a sequential execution the two coincide. -/
def singletonPut [DecidableEq T] (loaded current : Option T) (t : T) :
    Option T × Except Err Unit :=
  if current = loaded then (some t, .ok ())
  else (current, .error (.compareFailed "concurrent update occurred"))

/-- Embeds `singletonStore.delete`: ignores its argument and aliases `clear`. -/
def singletonDelete (_t : T) (s : Option T) : Option T × Except Err Unit :=
  singletonClear T s

/-- Embeds `singletonStore.get`. `tname` stands for
`reflect.TypeOf((*T)(nil)).Elem()` (e.g. `"types.StaticTokens"`). -/
def singletonGet (tname : String) (s : Option T) : Except Err T :=
  match s with
  | none => .error (.notFound ("no value for singleton of type " ++ tname))
  | some t => .ok t

/-! ## SortCache model

`lib/utils/sortcache` is not among the sampled files; only its callers are.
The container is modelled from the spec (§4.1 SortCache): a finite family of
named ordered maps `key → value`, one per index, where `put` overwrites the
binding under every index, `delete(name, key)` removes the value currently
bound at `key` under `name` from every index, `get` is a point lookup and
`ascend` iterates a half-open key range in ascending order. -/

/-- Modelled from the spec: one named index of a SortCache — its name, its
key function, and its current bindings (an unordered association list with
pairwise-distinct keys; ordering is imposed at iteration time). -/
structure IndexMap (T : Type) where
  name : String
  keyFn : T → String
  entries : List (String × T)

/-- Modelled from the spec: the SortCache state is the family of its indexes. -/
abbrev SortCacheState (T : Type) := List (IndexMap T)

/-- Insert/overwrite the binding `k → t` in an association list. -/
def insertEntry (k : String) (t : T) (es : List (String × T)) : List (String × T) :=
  (k, t) :: es.filter (fun e => e.1 ≠ k)

/-- Point lookup in an association list. -/
def lookupEntry (k : String) (es : List (String × T)) : Option T :=
  match es.find? (fun e => e.1 == k) with
  | some e => some e.2
  | none => none

/-- Modelled from the spec: `SortCache.Put` — insert/overwrite `t` under every
index, keyed by that index's key function. -/
def scPut (t : T) (ms : SortCacheState T) : SortCacheState T :=
  ms.map fun m => { m with entries := insertEntry (m.keyFn t) t m.entries }

/-- Modelled from the spec: `SortCache.Get` — point lookup under the named
index; `none` when the index does not exist or holds no binding for the key. -/
def scGet (name key : String) (ms : SortCacheState T) : Option T :=
  match ms.find? (fun m => m.name == name) with
  | some m => lookupEntry key m.entries
  | none => none

/-- Remove every binding of the value `v` (keyed per index) from all indexes. -/
def scRemoveValue (v : T) (ms : SortCacheState T) : SortCacheState T :=
  ms.map fun m => { m with entries := m.entries.filter (fun e => e.1 ≠ m.keyFn v) }

/-- Modelled from the spec: `SortCache.Delete` — locate the value currently
bound to `key` under `name` and remove it from every index; no-op when there
is no such binding. -/
def scDelete (name key : String) (ms : SortCacheState T) : SortCacheState T :=
  match scGet name key ms with
  | some v => scRemoveValue v ms
  | none => ms

/-- Modelled from the spec: `SortCache.Clear` — drop all indexes' contents. -/
def scClear (ms : SortCacheState T) : SortCacheState T :=
  ms.map fun m => { m with entries := [] }

/-- Lexicographic strict order on character lists, comparing code points
(this coincides with Go's byte-wise string order on the ASCII keys the cache
uses). -/
def charsLt : List Char → List Char → Bool
  | [], [] => false
  | [], _ :: _ => true
  | _ :: _, [] => false
  | x :: xs, y :: ys =>
    if x.toNat < y.toNat then true
    else if y.toNat < x.toNat then false
    else charsLt xs ys

/-- Strict string order used for index keys. -/
def strLt (a b : String) : Bool := charsLt a.data b.data

/-- Reflexive string order used for index keys. -/
def strLe (a b : String) : Bool := !(strLt b a)

/-- Insertion into a key-sorted association list. -/
def insertSorted (e : String × T) : List (String × T) → List (String × T)
  | [] => [e]
  | x :: xs => if strLe e.1 x.1 then e :: x :: xs else x :: insertSorted e xs

/-- Insertion sort of an association list by ascending key. -/
def sortEntries : List (String × T) → List (String × T)
  | [] => []
  | x :: xs => insertSorted x (sortEntries xs)

/-- Range test for `ascend`: `start ≤ k`, and `k < stop` unless `stop` is
empty (`""` start means "from the smallest key", `""` stop "to the end"). -/
def inRange (start stop k : String) : Bool :=
  strLe start k && (stop == "" || strLt k stop)

/-- Modelled from the spec: `SortCache.Ascend` — the values whose key under
the named index lies in the half-open range `[start, stop)`, in ascending
key order. -/
def scAscend (name start stop : String) (ms : SortCacheState T) : List T :=
  match ms.find? (fun m => m.name == name) with
  | some m => ((sortEntries m.entries).filter (fun e => inRange start stop e.1)).map (fun e => e.2)
  | none => []

/-! ## Resource store (`store.go`, `resourceStore[T]`) -/

/-- Embeds `resourceStore[T]`: an optional admission filter plus the wrapped
SortCache (whose indexes are the store's indexes). -/
structure ResourceStore (T : Type) where
  filter : Option (T → Bool)
  maps : SortCacheState T

/-- Embeds `newResourceStoreWithFilter`. -/
def newResourceStoreWithFilter (filter : Option (T → Bool))
    (indexes : List (String × (T → String))) : ResourceStore T :=
  { filter := filter
    maps := indexes.map fun i => { name := i.1, keyFn := i.2, entries := [] } }

/-- Embeds `newResourceStore` (no filter). -/
def newResourceStore (indexes : List (String × (T → String))) : ResourceStore T :=
  newResourceStoreWithFilter none indexes

/-- Embeds `resourceStore.clear`. -/
def ResourceStore.clear (s : ResourceStore T) : ResourceStore T × Except Err Unit :=
  ({ s with maps := scClear s.maps }, .ok ())

/-- Embeds `resourceStore.put`: if a filter is set and rejects `t`, return
success without storing; otherwise insert into the SortCache. -/
def ResourceStore.put (s : ResourceStore T) (t : T) : ResourceStore T × Except Err Unit :=
  match s.filter with
  | some f =>
    if !f t then (s, .ok ())
    else ({ s with maps := scPut t s.maps }, .ok ())
  | none => ({ s with maps := scPut t s.maps }, .ok ())

/-- Embeds `resourceStore.delete`: for every index of the store, delete by
`t`'s key under that index (each deletion acting on the state left by the
previous one, as the Go loop does). -/
def ResourceStore.delete (s : ResourceStore T) (t : T) : ResourceStore T × Except Err Unit :=
  let nks := s.maps.map fun m => (m.name, m.keyFn t)
  ({ s with maps := nks.foldl (fun acc nk => scDelete nk.1 nk.2 acc) s.maps }, .ok ())

/-- Embeds `resourceStore.get`. `tname` stands for
`reflect.TypeOf((*T)(nil)).Elem()` (e.g. `"int"` in the store test). -/
def ResourceStore.get (tname : String) (s : ResourceStore T) (index key : String) :
    Except Err T :=
  match scGet index key s.maps with
  | some t => .ok t
  | none => .error (.notFound ("no value for resource of type " ++ tname))

/-- Embeds `resourceStore.iterate` (SortCache ascend). -/
def ResourceStore.iterate (s : ResourceStore T) (index start stop : String) : List T :=
  scAscend index start stop s.maps

/-! ## Write-operation sequences on a resource store

Used to state store invariants over arbitrary sequential histories. -/

/-- A single sequential write against a `resourceStore`. -/
inductive StoreOp (T : Type) where
  | put (t : T)
  | del (t : T)
  | clear

/-- Run one write, discarding the (always-nil) error. -/
def applyOp (s : ResourceStore T) : StoreOp T → ResourceStore T
  | .put t => (s.put t).1
  | .del t => (s.delete t).1
  | .clear => s.clear.1

/-- Run a sequence of writes left to right. -/
def runOps (ops : List (StoreOp T)) (s : ResourceStore T) : ResourceStore T :=
  ops.foldl applyOp s

/-- Every value bound under any index of the state satisfies `f`. -/
def Admitted (f : T → Bool) (ms : SortCacheState T) : Prop :=
  ∀ m ∈ ms, ∀ e ∈ m.entries, f e.2 = true

theorem admitted_insertEntry {f : T → Bool} {t : T} (ht : f t = true)
    {es : List (String × T)} (h : ∀ e ∈ es, f e.2 = true) :
    ∀ e ∈ insertEntry k t es, f e.2 = true := by
  intro e he
  simp only [insertEntry] at he
  rcases List.mem_cons.mp he with rfl | he
  · exact ht
  · exact h e (List.mem_of_mem_filter he)

theorem admitted_scPut {f : T → Bool} {t : T} (ht : f t = true)
    {ms : SortCacheState T} (h : Admitted f ms) : Admitted f (scPut t ms) := by
  intro m hm e he
  rcases List.mem_map.mp hm with ⟨m₀, hm₀, rfl⟩
  exact admitted_insertEntry ht (h m₀ hm₀) e he

theorem admitted_scRemoveValue {f : T → Bool} {v : T}
    {ms : SortCacheState T} (h : Admitted f ms) : Admitted f (scRemoveValue v ms) := by
  intro m hm e he
  rcases List.mem_map.mp hm with ⟨m₀, hm₀, rfl⟩
  exact h m₀ hm₀ e (List.mem_of_mem_filter he)

theorem admitted_scDelete {f : T → Bool} {ms : SortCacheState T}
    (h : Admitted f ms) : Admitted f (scDelete name key ms) := by
  unfold scDelete
  cases scGet name key ms with
  | none => exact h
  | some v => exact admitted_scRemoveValue h

theorem admitted_scClear {f : T → Bool} (ms : SortCacheState T) :
    Admitted f (scClear ms) := by
  intro m hm e he
  rcases List.mem_map.mp hm with ⟨m₀, _, rfl⟩
  simp at he

theorem admitted_foldl_scDelete {f : T → Bool} (nks : List (String × String))
    {ms : SortCacheState T} (h : Admitted f ms) :
    Admitted f (nks.foldl (fun acc nk => scDelete nk.1 nk.2 acc) ms) := by
  induction nks generalizing ms with
  | nil => exact h
  | cons nk rest ih => exact ih (admitted_scDelete h)

/-- Stores whose filter is `some f` only ever hold `f`-admitted values:
the invariant is preserved by every write. -/
theorem admitted_applyOp {f : T → Bool} {s : ResourceStore T}
    (hf : s.filter = some f) (h : Admitted f s.maps) (op : StoreOp T) :
    (applyOp s op).filter = some f ∧ Admitted f (applyOp s op).maps := by
  cases op with
  | put t =>
    by_cases hft : f t = true
    · refine ⟨?_, ?_⟩
      · simp [applyOp, ResourceStore.put, hf, hft]
      · simpa [applyOp, ResourceStore.put, hf, hft] using admitted_scPut hft h
    · refine ⟨?_, ?_⟩
      · simp [applyOp, ResourceStore.put, hf, hft]
      · simpa [applyOp, ResourceStore.put, hf, hft] using h
  | del t =>
    refine ⟨by simp [applyOp, ResourceStore.delete, hf], ?_⟩
    simpa [applyOp, ResourceStore.delete] using
      admitted_foldl_scDelete (f := f) (s.maps.map fun m => (m.name, m.keyFn t)) h
  | clear =>
    refine ⟨by simp [applyOp, ResourceStore.clear, hf], ?_⟩
    simpa [applyOp, ResourceStore.clear] using admitted_scClear (f := f) s.maps

/-- After any sequence of writes against a store with filter `some f`, every
value held under any index is `f`-admitted. -/
theorem admitted_runOps {f : T → Bool} (ops : List (StoreOp T)) {s : ResourceStore T}
    (hf : s.filter = some f) (h : Admitted f s.maps) :
    (runOps ops s).filter = some f ∧ Admitted f (runOps ops s).maps := by
  induction ops generalizing s with
  | nil => exact ⟨hf, h⟩
  | cons op rest ih =>
    have step := admitted_applyOp hf h op
    exact ih step.1 step.2

/-- A freshly constructed filtered store holds nothing, so it is admitted. -/
theorem admitted_new (f : T → Bool) (indexes : List (String × (T → String))) :
    Admitted f (newResourceStoreWithFilter (some f) indexes).maps := by
  intro m hm e he
  simp only [newResourceStoreWithFilter] at hm
  rcases List.mem_map.mp hm with ⟨i, _, rfl⟩
  simp at he

/-! ## Collection machinery (`collection.go`)

The generic `collection[T, S, U]` binds a store, an upstream and a watch
descriptor. Its `fetch` returns an apply closure; the closure is embedded by
defunctionalization: `collectionFetch` returns the data the Go closure
captures (`c.singleton`, `deleteSingleton`, `cacheOK`, `resources`) as an
`ApplyPlan`, and `runApply` is the closure body run against a store. The
store interface (`put`/`delete`/`clear`) is a record of operations so the
same apply body serves the singleton and the resource instantiations, as the
Go generic does. Upstream invocations are counted explicitly so that
"never contacts the upstream" is expressible. -/

/-- The data captured by the closure returned from `collection.fetch`. -/
structure ApplyPlan (T : Type) where
  singleton : Bool
  cacheOK : Bool
  deleteSingleton : Bool
  resources : List T
deriving DecidableEq

instance {ε α : Type} [DecidableEq ε] [DecidableEq α] : DecidableEq (Except ε α) := fun x y =>
  match x, y with
  | .ok a, .ok b =>
    if h : a = b then isTrue (by rw [h]) else isFalse (by intro hc; cases hc; exact h rfl)
  | .ok _, .error _ => isFalse (by intro hc; cases hc)
  | .error _, .ok _ => isFalse (by intro hc; cases hc)
  | .error a, .error b =>
    if h : a = b then isTrue (by rw [h]) else isFalse (by intro hc; cases hc; exact h rfl)

/-- Result of `collection.fetch`: the plan (or the fetch-phase error, in
which case no apply function is produced) and the number of calls made to
`upstream.getAll`. -/
structure FetchOutcome (T : Type) where
  plan : Except Err (ApplyPlan T)
  getAllCalls : Nat
deriving DecidableEq

/-- Embeds the fetch phase of `collection.fetch`: only when `cacheOK` is the
upstream consulted; an upstream `NotFound` sets `deleteSingleton` and yields
empty data; any other upstream error aborts; with `cacheOK` false nothing is
fetched. -/
def collectionFetch (singleton cacheOK : Bool)
    (getAll : Bool → Except Err (List T)) (loadSecrets : Bool) : FetchOutcome T :=
  if cacheOK then
    match getAll loadSecrets with
    | .ok rs =>
      { plan := .ok { singleton := singleton, cacheOK := cacheOK,
                      deleteSingleton := false, resources := rs }
        getAllCalls := 1 }
    | .error e =>
      if e.isNotFound then
        { plan := .ok { singleton := singleton, cacheOK := cacheOK,
                        deleteSingleton := true, resources := [] }
          getAllCalls := 1 }
      else { plan := .error e, getAllCalls := 1 }
  else
    { plan := .ok { singleton := singleton, cacheOK := cacheOK,
                    deleteSingleton := false, resources := [] }
      getAllCalls := 0 }

/-- The `store[T]` interface of `collection.go` as a record of state-passing
operations over a store state `σ`. -/
structure StoreOps (σ T : Type) where
  put : T → σ → σ × Except Err Unit
  del : T → σ → σ × Except Err Unit
  clear : σ → σ × Except Err Unit

/-- The singleton store as a `store[T]` (sequential semantics: the pointer
compared by `put`'s CAS is the pointer just loaded). -/
def singletonOps (T : Type) [DecidableEq T] : StoreOps (Option T) T :=
  { put := fun t s => singletonPut s s t
    del := fun t s => singletonDelete t s
    clear := fun s => singletonClear T s }

/-- The resource store as a `store[T]`. -/
def resourceOps (T : Type) : StoreOps (ResourceStore T) T :=
  { put := fun t s => s.put t
    del := fun t s => s.delete t
    clear := fun s => s.clear }

/-- The `put` loop at the end of the apply closure: install each fetched
value, aborting on the first `put` error. -/
def putAll (ops : StoreOps σ T) : List T → σ → σ × Except Err Unit
  | [], s => (s, .ok ())
  | t :: ts, s =>
    match ops.put t s with
    | (s', .ok _) => putAll ops ts s'
    | (s', .error e) => (s', .error e)

/-- Embeds the apply closure returned by `collection.fetch`: clear unless
this is a singleton being refreshed in-generation; a `NotFound` from `clear`
is swallowed, any other `clear` error aborts; stop after the clear when this
is a singleton delete or the kind is not cached this generation; otherwise
install the fetched values. -/
def runApply (ops : StoreOps σ T) (p : ApplyPlan T) (s : σ) : σ × Except Err Unit :=
  let cleared : σ × Option Err :=
    if !p.singleton || p.deleteSingleton || !p.cacheOK then
      match ops.clear s with
      | (s', .ok _) => (s', none)
      | (s', .error e) => if e.isNotFound then (s', none) else (s', some e)
    else (s, none)
  match cleared with
  | (s', some e) => (s', .error e)
  | (s', none) =>
    if (p.singleton && p.deleteSingleton) || !p.cacheOK then (s', .ok ())
    else putAll ops p.resources s'

/-! ## Event carriers and `onUpdate` / `onDelete`

An incoming event resource (`types.Resource`) is one of: a
`types.Resource153Unwrapper` (whose `Unwrap()` either is or is not a `T`), a
bare `*types.ResourceHeader`, a value directly of type `T`, or anything
else. The Go type switch tries the cases in that order; for the covered
kinds a `*types.ResourceHeader` does not implement `T`, so in `onUpdate`
(which has no header case) it falls to the default branch. -/

/-- The shapes an event resource carrier can take, relative to a target
type `T`. The string of `wrappedOther` / `otherType` is the Go dynamic type
name (`%T`). -/
inductive Carrier (T : Type) where
  | wrappedOK (t : T)
  | wrappedOther (typeName : String)
  | header (kind name : String)
  | direct (t : T)
  | otherType (typeName : String)

/-- Embeds `collection.onDelete`. `tname` stands for
`reflect.TypeOf((*T)(nil)).Elem()`. -/
def collOnDelete (ops : StoreOps σ T) (tname : String) (r : Carrier T) (s : σ) :
    σ × Except Err Unit :=
  match r with
  | .wrappedOK t => ops.del t s
  | .wrappedOther n =>
    (s, .error (.badParameter ("unexpected wrapped type " ++ n ++ " (expected " ++ tname ++ ")")))
  | .header _ _ =>
    (s, .error (.badParameter ("unable to convert types.ResourceHeader to " ++ tname)))
  | .direct t => ops.del t s
  | .otherType n =>
    (s, .error (.badParameter ("unexpected type " ++ n ++ " (expected " ++ tname ++ ")")))

/-- Embeds `collection.onUpdate`. The `put` error is discarded, as in the
source (`c.store.put(tt); return nil`). A header carrier lands in the
default branch, whose `%T` renders as `*types.ResourceHeader`. -/
def collOnUpdate (ops : StoreOps σ T) (tname : String) (r : Carrier T) (s : σ) :
    σ × Except Err Unit :=
  match r with
  | .wrappedOK t => ((ops.put t s).1, .ok ())
  | .wrappedOther n =>
    (s, .error (.badParameter ("unexpected wrapped type " ++ n ++ " (expected " ++ tname ++ ")")))
  | .header _ _ =>
    (s, .error (.badParameter ("unexpected type *types.ResourceHeader (expected " ++ tname ++ ")")))
  | .direct t => ((ops.put t s).1, .ok ())
  | .otherType n =>
    (s, .error (.badParameter ("unexpected type " ++ n ++ " (expected " ++ tname ++ ")")))

/-! ## Certificate authorities (`cert_authority.go`) -/

/-- A certificate authority, reduced to what the cache core observes: its
type, its domain name (cluster), and its secret material (signing keys).
`Clone` is the identity on this value model; `WithoutSecrets` empties the
signing keys. -/
structure CA where
  caType : String
  domain : String
  signingKeys : List String
deriving DecidableEq

/-- Embeds `CertAuthority.Clone` (an independent deep copy; the identity on
immutable values). -/
def cloneCA (ca : CA) : CA := ca

/-- Embeds `CertAuthority.WithoutSecrets`. -/
def withoutSecretsCA (ca : CA) : CA := { ca with signingKeys := [] }

/-- The `"id"` index key of the cert-authority store:
`string(ca.GetType()) + "/" + ca.GetID().DomainName`. -/
def caIdKey (ca : CA) : String := ca.caType ++ "/" ++ ca.domain

/-- Modelled from the spec: `types.CertAuthorityFilter` parsed from the
watch descriptor is a CA-type whitelist; an empty filter admits everything. -/
abbrev CAFilter := List String

/-- Modelled from the spec: `CertAuthorityFilter.IsEmpty`. -/
def caFilterIsEmpty (f : CAFilter) : Bool := f.isEmpty

/-- Modelled from the spec: `CertAuthorityFilter.Match` — an empty filter
matches every CA, otherwise the CA's type must be whitelisted. -/
def caMatch (f : CAFilter) (ca : CA) : Bool :=
  caFilterIsEmpty f || f.contains ca.caType

/-- Modelled from the spec: `types.CertAuthTypes`, the fixed list of CA
types iterated by `caUpstream.getAll`. The spec's scenarios name `user`,
`host` and `saml`; the remaining tags stand for the other compiled-in types. -/
def certAuthTypes : List String :=
  ["user", "host", "db", "db_client", "openssh", "jwt", "saml", "oidc", "spiffe"]

/-- The store built by `newCertAuthorityCollection`: a resource store whose
admission filter is `filter.Match` and whose single index is `"id"`. -/
def newCAStore (f : CAFilter) : ResourceStore CA :=
  newResourceStoreWithFilter (some (caMatch f)) [("id", caIdKey)]

/-- Embeds the loop body of `caUpstream.getAll` over the remaining CA types:
per type, fetch from the upstream `trust`; an unsupported-authority error on
a newly added type is skipped, any other error aborts; when the filter is
non-empty the fetched list is defensively filtered; results concatenate in
type order. -/
def caGetAllAux (f : CAFilter) (trust : String → Bool → Except Err (List CA))
    (newlyAdded : String → Bool) (loadSecrets : Bool) : List String → Except Err (List CA)
  | [] => .ok []
  | ty :: rest =>
    match trust ty loadSecrets with
    | .error e =>
      if e.isUnsupportedAuthority && newlyAdded ty then
        caGetAllAux f trust newlyAdded loadSecrets rest
      else .error e
    | .ok cas =>
      let cas := if caFilterIsEmpty f then cas else cas.filter (caMatch f)
      match caGetAllAux f trust newlyAdded loadSecrets rest with
      | .ok tail => .ok (cas ++ tail)
      | .error e => .error e

/-- Embeds `caUpstream.getAll`. -/
def caGetAll (f : CAFilter) (trust : String → Bool → Except Err (List CA))
    (newlyAdded : String → Bool) (loadSecrets : Bool) : Except Err (List CA) :=
  caGetAllAux f trust newlyAdded loadSecrets certAuthTypes

/-- The identifier of a certificate authority, `types.CertAuthID`. -/
structure CertAuthID where
  idType : String
  domainName : String
deriving DecidableEq

/-- Outcome of a facade read: the returned value or error, the number of
calls that reached the upstream, and whether the FnCache wrapper was the
path taken. -/
structure CAReadOutcome where
  result : Except Err CA
  upstreamCalls : Nat
  viaFnCache : Bool
deriving DecidableEq

/-- Embeds `Cache.GetCertAuthority`. `readCache` is the verdict of the read
guard (`rg.ReadCache()`, modelled from the spec's read-guard contract §4.6);
`upstream` is `collection.upstream.GetCertAuthority` for the given id, taking
`loadSigningKeys`. With a granted cache read the store is consulted first
(with a one-shot upstream attempt on a store miss, where an upstream failure
surfaces the store's original error); otherwise `loadSigningKeys` decides
between a direct upstream call and the FnCache-wrapped one (the FnCache
modelled from the spec as a pass-through to the loader, which clones on
success). -/
def getCertAuthority (readCache : Bool) (store : ResourceStore CA)
    (upstream : Bool → Except Err CA) (id : CertAuthID) (loadSigningKeys : Bool) :
    CAReadOutcome :=
  if readCache then
    match store.get "types.CertAuthority" "id" (id.idType ++ "/" ++ id.domainName) with
    | .ok ca =>
      if !loadSigningKeys then
        { result := .ok (withoutSecretsCA (cloneCA ca)), upstreamCalls := 0, viaFnCache := false }
      else
        { result := .ok (cloneCA ca), upstreamCalls := 0, viaFnCache := false }
    | .error e =>
      if e.isNotFound then
        match upstream loadSigningKeys with
        | .ok ca => { result := .ok ca, upstreamCalls := 1, viaFnCache := false }
        | .error _ => { result := .error e, upstreamCalls := 1, viaFnCache := false }
      else { result := .error e, upstreamCalls := 0, viaFnCache := false }
  else
    if loadSigningKeys then
      { result := upstream loadSigningKeys, upstreamCalls := 1, viaFnCache := false }
    else
      match upstream loadSigningKeys with
      | .ok ca => { result := .ok (cloneCA ca), upstreamCalls := 1, viaFnCache := true }
      | .error e => { result := .error e, upstreamCalls := 1, viaFnCache := true }

/-! ## Users (`users.go`) -/

/-- A user, reduced to what the cache core observes: the name (the sole
index) and secret material. Every `types.User` value is a `*types.UserV2`,
so the `u.(*types.UserV2)` assertion in `ListUsers` always succeeds and is
not represented. -/
structure User where
  name : String
  secret : String
deriving DecidableEq

/-- Embeds `User.Clone`. -/
def cloneUser (u : User) : User := u

/-- Embeds `User.WithoutSecrets`. -/
def withoutSecretsUser (u : User) : User := { u with secret := "" }

/-- The user store built by `newUserCollection`: no filter, single index
`"name"`. -/
def newUserStore : ResourceStore User :=
  newResourceStore [("name", User.name)]

/-- Modelled from the spec (§6.3 key format): `backend.ExactKey(name)` — the
exact-match key `/name/` (parts joined by the separator `/`, with a trailing
separator). -/
def exactKey (name : String) : String := "/" ++ name ++ "/"

/-- Increment the last character (byte-range-end step). -/
def incrLast : List Char → List Char
  | [] => []
  | [c] => [Char.ofNat (c.toNat + 1)]
  | c :: rest => c :: incrLast rest

/-- Modelled from the spec (§6.3): `backend.RangeEnd` — the byte-range-end
of a key, obtained by incrementing its final byte (the 0xff carry case does
not arise for the separator-terminated keys used here). -/
def rangeEnd (s : String) : String := String.mk (incrLast s.data)

/-- Modelled from the spec (§6.3): trimming separator bytes from both ends
of a key string (`strings.Trim(key, string(backend.Separator))`). -/
def trimSeparators (s : String) : String :=
  String.mk (((s.data.dropWhile (fun c => c == '/')).reverse.dropWhile (fun c => c == '/')).reverse)

/-- The next-page token computed by `ListUsers` when the page fills:
`strings.Trim(backend.RangeEnd(backend.ExactKey(u.GetName())).String(), sep)`,
evaluated at the user the loop is currently visiting. -/
def nextUserTokenOf (name : String) : String :=
  trimSeparators (rangeEnd (exactKey name))

/-- The paged response `userspb.ListUsersResponse`, reduced to the fields
the cache branch populates. -/
structure ListUsersResponse where
  users : List User
  nextPageToken : String
deriving DecidableEq

/-- The iteration body of the cache branch of `Cache.ListUsers`: skip users
failing the filter; once the page holds `pageSize` users, emit the token
derived from the visiting user and stop; otherwise append (cloned when
secrets were requested, secret-stripped when not). `acc` holds the page in
reverse. -/
def listUsersLoop (pageSize : Nat) (withSecrets : Bool) (filter : Option (User → Bool)) :
    List User → List User → ListUsersResponse
  | [], acc => { users := acc.reverse, nextPageToken := "" }
  | u :: rest, acc =>
    if (match filter with | some f => f u | none => true) then
      if acc.length == pageSize then
        { users := acc.reverse, nextPageToken := nextUserTokenOf u.name }
      else
        listUsersLoop pageSize withSecrets filter rest
          ((if withSecrets then cloneUser u else withoutSecretsUser u) :: acc)
    else listUsersLoop pageSize withSecrets filter rest acc

/-- Embeds the cache branch of `Cache.ListUsers`: iterate the `"name"` index
from `pageToken` on and run the page loop. (The `withSecrets = true` route
never reaches this branch in the facade, which sends it to the upstream; the
projection conditional is nevertheless embedded as written.) -/
def listUsersFromStore (store : ResourceStore User) (pageToken : String) (pageSize : Nat)
    (withSecrets : Bool) (filter : Option (User → Bool)) : ListUsersResponse :=
  listUsersLoop pageSize withSecrets filter (store.iterate "name" pageToken "") []

/-! ## Helper lemmas shared by the claim theorems -/

theorem mem_insertSorted {x e : String × T} {es : List (String × T)}
    (h : x ∈ insertSorted e es) : x = e ∨ x ∈ es := by
  induction es with
  | nil => simpa [insertSorted] using h
  | cons y ys ih =>
    simp only [insertSorted] at h
    split at h
    · rcases List.mem_cons.mp h with rfl | h
      · exact Or.inl rfl
      · exact Or.inr h
    · rcases List.mem_cons.mp h with rfl | h
      · exact Or.inr (List.mem_cons_self _ _)
      · rcases ih h with rfl | h
        · exact Or.inl rfl
        · exact Or.inr (List.mem_cons_of_mem _ h)

theorem mem_sortEntries {x : String × T} {es : List (String × T)}
    (h : x ∈ sortEntries es) : x ∈ es := by
  induction es with
  | nil => simp [sortEntries] at h
  | cons y ys ih =>
    simp only [sortEntries] at h
    rcases mem_insertSorted h with rfl | h
    · exact List.mem_cons_self _ _
    · exact List.mem_cons_of_mem _ (ih h)

theorem mem_scAscend {x : T} {name start stop : String} {ms : SortCacheState T}
    (h : x ∈ scAscend name start stop ms) :
    ∃ m, m ∈ ms ∧ ∃ e, e ∈ m.entries ∧ e.2 = x := by
  unfold scAscend at h
  cases hf : ms.find? (fun m => m.name == name) with
  | none => rw [hf] at h; simp at h
  | some m =>
    rw [hf] at h
    rcases List.mem_map.mp h with ⟨e, he, rfl⟩
    exact ⟨m, List.mem_of_find?_eq_some hf,
      e, mem_sortEntries (List.mem_of_mem_filter he), rfl⟩

theorem scGet_mem {v : T} {name key : String} {ms : SortCacheState T}
    (h : scGet name key ms = some v) :
    ∃ m, m ∈ ms ∧ ∃ e, e ∈ m.entries ∧ e.2 = v := by
  unfold scGet at h
  cases hf : ms.find? (fun m => m.name == name) with
  | none => rw [hf] at h; simp at h
  | some m =>
    rw [hf] at h
    simp only [lookupEntry] at h
    cases he : m.entries.find? (fun e => e.1 == key) with
    | none => rw [he] at h; simp at h
    | some e =>
      rw [he] at h
      refine ⟨m, List.mem_of_find?_eq_some hf, e, List.mem_of_find?_eq_some he, ?_⟩
      simpa using h

/-- Values rejected by the admission filter are never yielded by `iterate`. -/
theorem not_mem_iterate_filtered {f : T → Bool} {t : T} (ht : f t = false)
    {s : ResourceStore T} (h : Admitted f s.maps) (name start stop : String) :
    t ∉ s.iterate name start stop := by
  intro hmem
  rcases mem_scAscend hmem with ⟨m, hm, e, he, rfl⟩
  rw [h m hm e he] at ht
  cases ht

/-- Values rejected by the admission filter are never returned by `get`. -/
theorem get_ne_filtered {f : T → Bool} {t : T} (ht : f t = false)
    {s : ResourceStore T} (h : Admitted f s.maps) (tname name key : String) (v : T)
    (hv : s.get tname name key = .ok v) : v ≠ t := by
  intro rfl_eq
  subst rfl_eq
  unfold ResourceStore.get at hv
  cases hg : scGet name key s.maps with
  | none => rw [hg] at hv; cases hv
  | some w =>
    rw [hg] at hv
    cases hv
    rcases scGet_mem hg with ⟨m, hm, e, he, rfl⟩
    rw [h m hm e he] at ht
    cases ht

/-- The `putAll` loop succeeds whenever the store's `put` does. -/
theorem putAll_ok {ops : StoreOps σ T} (hput : ∀ t s, (ops.put t s).2 = .ok ())
    (ts : List T) (s : σ) : (putAll ops ts s).2 = .ok () := by
  induction ts generalizing s with
  | nil => rfl
  | cons t rest ih =>
    have h := hput t s
    unfold putAll
    rcases hp : ops.put t s with ⟨s1, r⟩
    rw [hp] at h
    simp only at h
    subst h
    simpa using ih s1

/-- The apply closure succeeds whenever the store's `put` and `clear` do. -/
theorem runApply_ok {ops : StoreOps σ T} (hput : ∀ t s, (ops.put t s).2 = .ok ())
    (hclear : ∀ s, (ops.clear s).2 = .ok ()) (p : ApplyPlan T) (s : σ) :
    (runApply ops p s).2 = .ok () := by
  unfold runApply
  split
  · rcases hc : ops.clear s with ⟨s1, r⟩
    have h := hclear s
    rw [hc] at h
    simp only at h
    subst h
    simp only
    split
    · rfl
    · exact putAll_ok hput p.resources s1
  · simp only
    split
    · rfl
    · exact putAll_ok hput p.resources s

/-- The resource store's `put` always reports success. -/
theorem resourcePut_ok (s : ResourceStore T) (t : T) : (s.put t).2 = .ok () := by
  unfold ResourceStore.put
  cases s.filter with
  | none => rfl
  | some f =>
    simp only
    split <;> rfl

/-- Every CA returned by the `getAll` loop matches a non-empty watch filter:
the defensive filtering step removes everything else, whatever the upstream
returns. -/
theorem caGetAllAux_filtered (f : CAFilter) (trust : String → Bool → Except Err (List CA))
    (newlyAdded : String → Bool) (ls : Bool) (tys : List String) (cas : List CA)
    (h : caGetAllAux f trust newlyAdded ls tys = .ok cas)
    (hne : caFilterIsEmpty f = false) : cas.all (caMatch f) = true := by
  induction tys generalizing cas with
  | nil =>
    simp only [caGetAllAux] at h
    cases h
    rfl
  | cons ty rest ih =>
    simp only [caGetAllAux] at h
    cases htr : trust ty ls with
    | error e =>
      simp only [htr] at h
      split at h
      · exact ih cas h
      · exact Except.noConfusion h
    | ok fetched =>
      simp only [htr] at h
      cases hrec : caGetAllAux f trust newlyAdded ls rest with
      | error e =>
        simp only [hrec] at h
        exact Except.noConfusion h
      | ok tail =>
        simp only [hrec, hne] at h
        rw [if_neg (by decide : ¬ (false = true))] at h
        cases h
        rw [List.all_append]
        refine (Bool.and_eq_true _ _).mpr ⟨?_, ih tail hrec⟩
        rw [List.all_eq_true]
        intro ca hca
        exact List.of_mem_filter hca

/-! ## Claim theorems -/

/-- C9: on the singleton store, `put(S)` followed by `get()` with no
intervening writes returns `S`; `delete` has exactly the effect of `clear`
for any argument; and `get()` on the empty store is `NotFound` with a
message naming the element type (for `types.StaticTokens`:
`"no value for singleton of type types.StaticTokens"`, as the store test
checks). The sequential `put` is the CAS against the pointer just loaded. -/
theorem singletonStore_lifecycle (T : Type) [DecidableEq T] (s : Option T) (t : T)
    (tname : String) :
    singletonPut s s t = (some t, .ok ()) ∧
    singletonGet tname (singletonPut s s t).1 = .ok t ∧
    singletonDelete t s = singletonClear T s ∧
    singletonGet tname (none : Option T) =
      .error (.notFound ("no value for singleton of type " ++ tname)) := by
  refine ⟨?_, ?_, rfl, rfl⟩
  · simp [singletonPut]
  · simp [singletonPut, singletonGet]

/-- Witness for C9 at a concrete store and the static-tokens type name. -/
theorem singletonStore_lifecycle_witness :
    singletonPut (some 7) (some 7) 5 = (some 5, .ok ()) ∧
    singletonGet "types.StaticTokens" (singletonPut (some 7) (some 7) 5).1 = .ok 5 ∧
    singletonDelete 5 (some 7) = singletonClear Nat (some 7) ∧
    singletonGet "types.StaticTokens" (none : Option Nat) =
      .error (.notFound "no value for singleton of type types.StaticTokens") :=
  singletonStore_lifecycle Nat (some 7) 5 "types.StaticTokens"

/-- C10: in a sequential execution every store write reports success —
`resourceStore.put` / `.delete` / `.clear` and `singletonStore.clear` /
`.delete` always return nil, and `singletonStore.put`'s `CompareFailed`
branch cannot be taken because the CAS compares against the pointer the
same call just loaded — and consequently the apply closure returned by
`fetch` never aborts on a store write, for either store shape. -/
theorem sequential_store_writes_never_fail (T : Type) [DecidableEq T]
    (s : ResourceStore T) (so : Option T) (t : T) (p : ApplyPlan T) :
    (s.put t).2 = .ok () ∧
    (s.delete t).2 = .ok () ∧
    s.clear.2 = .ok () ∧
    singletonClear T so = (none, .ok ()) ∧
    (singletonDelete t so).2 = .ok () ∧
    singletonPut so so t = (some t, .ok ()) ∧
    (runApply (resourceOps T) p s).2 = .ok () ∧
    (runApply (singletonOps T) p so).2 = .ok () := by
  refine ⟨resourcePut_ok s t, rfl, rfl, rfl, rfl, by simp [singletonPut], ?_, ?_⟩
  · exact runApply_ok (fun t s => resourcePut_ok s t) (fun _ => rfl) p s
  · exact runApply_ok (fun t s => by simp [singletonOps, singletonPut]) (fun _ => rfl) p so

/-- Witness for C10 at concrete inputs. -/
theorem sequential_store_writes_never_fail_witness :
    ((newUserStore.put { name := "a", secret := "" }).2 = .ok () ∧
      (newUserStore.delete { name := "a", secret := "" }).2 = .ok () ∧
      newUserStore.clear.2 = .ok () ∧
      singletonClear User none = (none, .ok ()) ∧
      (singletonDelete { name := "a", secret := "" } (none : Option User)).2 = .ok () ∧
      singletonPut (none : Option User) none { name := "a", secret := "" } =
        (some { name := "a", secret := "" }, .ok ()) ∧
      (runApply (resourceOps User)
        { singleton := false, cacheOK := true, deleteSingleton := false,
          resources := [{ name := "a", secret := "" }] } newUserStore).2 = .ok () ∧
      (runApply (singletonOps User)
        { singleton := false, cacheOK := true, deleteSingleton := false,
          resources := [{ name := "a", secret := "" }] } (none : Option User)).2 = .ok ()) :=
  sequential_store_writes_never_fail User newUserStore none { name := "a", secret := "" }
    { singleton := false, cacheOK := true, deleteSingleton := false,
      resources := [{ name := "a", secret := "" }] }

/-- C8: for every store shape, `onUpdate` and `onDelete` reject with a
`BadParameter` (the spec's BadInput) naming the expected type any carrier
that is neither an unwrappable `Resource153Unwrapper` unwrapping to `T` nor
directly a `T`; and `onDelete` of a bare `*types.ResourceHeader` is rejected
with `BadParameter` — the sampled `collection` supplies no header transform
for any kind, so this holds for all covered kinds. -/
theorem collection_event_type_errors (σ T : Type) (ops : StoreOps σ T)
    (tname n k nm : String) (s : σ) :
    (collOnUpdate ops tname (.wrappedOther n) s).2 =
      .error (.badParameter ("unexpected wrapped type " ++ n ++ " (expected " ++ tname ++ ")")) ∧
    (collOnUpdate ops tname (.otherType n) s).2 =
      .error (.badParameter ("unexpected type " ++ n ++ " (expected " ++ tname ++ ")")) ∧
    (collOnUpdate ops tname (.header k nm) s).2 =
      .error (.badParameter ("unexpected type *types.ResourceHeader (expected " ++ tname ++ ")")) ∧
    (collOnDelete ops tname (.wrappedOther n) s).2 =
      .error (.badParameter ("unexpected wrapped type " ++ n ++ " (expected " ++ tname ++ ")")) ∧
    (collOnDelete ops tname (.otherType n) s).2 =
      .error (.badParameter ("unexpected type " ++ n ++ " (expected " ++ tname ++ ")")) ∧
    (collOnDelete ops tname (.header k nm) s).2 =
      .error (.badParameter ("unable to convert types.ResourceHeader to " ++ tname)) :=
  ⟨rfl, rfl, rfl, rfl, rfl, rfl⟩

/-- C6: `fetch` with `cacheOK = false` never invokes the upstream's
`getAll`, succeeds, and the apply it returns only clears: on the singleton
store the held value is deleted, on the resource store every index is
emptied, and no value is installed. -/
theorem fetch_cacheOK_false_empties_store (T : Type) [DecidableEq T] (singleton : Bool)
    (getAll : Bool → Except Err (List T)) (loadSecrets : Bool) :
    (collectionFetch singleton false getAll loadSecrets).getAllCalls = 0 ∧
    (collectionFetch singleton false getAll loadSecrets).plan =
      .ok { singleton := singleton, cacheOK := false, deleteSingleton := false,
            resources := [] } ∧
    (∀ so : Option T,
      runApply (singletonOps T)
        { singleton := singleton, cacheOK := false, deleteSingleton := false,
          resources := [] } so = (none, .ok ())) ∧
    (∀ s : ResourceStore T,
      runApply (resourceOps T)
        { singleton := singleton, cacheOK := false, deleteSingleton := false,
          resources := [] } s = ({ s with maps := scClear s.maps }, .ok ()) ∧
      ∀ m ∈ (runApply (resourceOps T)
        { singleton := singleton, cacheOK := false, deleteSingleton := false,
          resources := [] } s).1.maps, m.entries = []) := by
  refine ⟨rfl, rfl, ?_, ?_⟩
  · intro so
    simp [runApply, singletonOps, singletonClear]
  · intro s
    constructor
    · simp [runApply, resourceOps, ResourceStore.clear]
    · intro m hm
      simp [runApply, resourceOps, ResourceStore.clear, scClear] at hm
      rcases hm with ⟨m₀, _, rfl⟩
      rfl

/-- Witness for C6 at concrete inputs: the upstream is not called and both
store shapes end up empty. -/
theorem fetch_cacheOK_false_empties_store_witness :
    (collectionFetch true false (fun _ => .ok [(1 : Nat)]) false).getAllCalls = 0 ∧
    runApply (singletonOps Nat)
      { singleton := true, cacheOK := false, deleteSingleton := false,
        resources := [] } (some 2) = (none, .ok ()) := by
  have h := fetch_cacheOK_false_empties_store Nat true (fun _ => .ok [(1 : Nat)]) false
  exact ⟨h.1, h.2.2.1 (some 2)⟩

/-- C7: `fetch` with `cacheOK = true` and a failing upstream: a `NotFound`
yields success with an empty snapshot whose apply clears the singleton store
and installs nothing; any other error is returned from `fetch` itself, so no
apply function is produced and the reinit aborts. -/
theorem fetch_upstream_error_singleton (T : Type) [DecidableEq T] (e : Err)
    (loadSecrets : Bool) :
    collectionFetch (T := T) true true (fun _ => .error e) loadSecrets =
      (if e.isNotFound then
        { plan := .ok { singleton := true, cacheOK := true, deleteSingleton := true,
                        resources := [] },
          getAllCalls := 1 }
       else { plan := .error e, getAllCalls := 1 }) ∧
    ∀ so : Option T,
      runApply (singletonOps T)
        { singleton := true, cacheOK := true, deleteSingleton := true,
          resources := [] } so = (none, .ok ()) := by
  constructor
  · cases he : e.isNotFound <;> simp [collectionFetch, he]
  · intro so
    simp [runApply, singletonOps, singletonClear]

/-- Witness for C7: a `NotFound` from the upstream produces the
singleton-clearing plan, a different error aborts the fetch, and the
clearing plan empties a populated singleton store. -/
theorem fetch_upstream_error_singleton_witness :
    collectionFetch (T := Nat) true true (fun _ => .error (Err.notFound "missing")) false =
      { plan := .ok { singleton := true, cacheOK := true, deleteSingleton := true,
                      resources := [] },
        getAllCalls := 1 } ∧
    collectionFetch (T := Nat) true true (fun _ => .error (Err.other "boom")) false =
      { plan := .error (Err.other "boom"), getAllCalls := 1 } ∧
    runApply (singletonOps Nat)
      { singleton := true, cacheOK := true, deleteSingleton := true,
        resources := [] } (some 3) = (none, .ok ()) := by
  refine ⟨?_, ?_, (fetch_upstream_error_singleton Nat (Err.other "boom") false).2 (some 3)⟩
  · have h := (fetch_upstream_error_singleton Nat (Err.notFound "missing") false).1
    simpa [Err.isNotFound] using h
  · have h := (fetch_upstream_error_singleton Nat (Err.other "boom") false).1
    simpa [Err.isNotFound] using h

/-! ### Scenario data -/

/-- The user `alice`. -/
def aliceUser : User := { name := "alice", secret := "" }

/-- The user `bob`. -/
def bobUser : User := { name := "bob", secret := "" }

/-- The user `carol`. -/
def carolUser : User := { name := "carol", secret := "" }

/-- The cached user store holding `alice`, `bob`, `carol`. -/
def abcUserStore : ResourceStore User :=
  runOps [StoreOp.put aliceUser, StoreOp.put bobUser, StoreOp.put carolUser] newUserStore

/-- C1: the paging scenario of the spec fails on the code. The first page of
size 2 over `alice`, `bob`, `carol` is `[alice, bob]` as claimed, but the
loop derives the token from the user it is visiting when the page fills —
the first user NOT returned (`carol`) — as
`Trim(RangeEnd(ExactKey("carol"))) = "carol0"`. Since
`"carol" < "carol0"`, resuming the `"name"` iteration at `"carol0"` skips
`carol`: the second call returns `[]` with an empty token instead of the
claimed `[carol]`. A token derived from the last emitted user (`"bob0"`)
would resume correctly, as the final conjunct shows. -/
theorem listUsers_pagination_drops_resume_user :
    listUsersFromStore abcUserStore "" 2 false none =
      { users := [aliceUser, bobUser], nextPageToken := "carol0" } ∧
    listUsersFromStore abcUserStore "carol0" 2 false none =
      { users := [], nextPageToken := "" } ∧
    nextUserTokenOf "bob" = "bob0" ∧
    listUsersFromStore abcUserStore "bob0" 2 false none =
      { users := [carolUser], nextPageToken := "" } :=
  ⟨rfl, rfl, rfl, rfl⟩

/-- A CA of type `user` for domain `root` as held in a ready cache. -/
def caStoredUserRoot : CA :=
  { caType := "user", domain := "root", signingKeys := ["stored-signing-key"] }

/-- A distinct CA the upstream would return for the same id. -/
def caUpstreamUserRoot : CA :=
  { caType := "user", domain := "root", signingKeys := ["upstream-signing-key"] }

/-- A ready cert-authority store (empty watch filter) holding
`caStoredUserRoot`. -/
def readyCAStore : ResourceStore CA := ((newCAStore []).put caStoredUserRoot).1

/-- The upstream read for the C2 scenario. -/
def caUpstreamFn : Bool → Except Err CA := fun _ => .ok caUpstreamUserRoot

/-- C2 counterexample: with the read guard granting a cache read and the CA
present in the store, `GetCertAuthority(id, loadSigningKeys = true)` makes
no upstream call and returns the (cloned) store value — refuting "always
calls the upstream and never returns a value read from the local store,
regardless of cache readiness". -/
theorem getCertAuthority_loadKeys_cache_counterexample :
    (getCertAuthority true readyCAStore caUpstreamFn
      { idType := "user", domainName := "root" } true).upstreamCalls = 0 ∧
    (getCertAuthority true readyCAStore caUpstreamFn
      { idType := "user", domainName := "root" } true).result = .ok caStoredUserRoot :=
  ⟨rfl, rfl⟩

/-- C2 (amended): whenever the read guard does not grant a cache read,
`GetCertAuthority(id, loadSigningKeys = true)` always calls the upstream —
exactly once, bypassing the FnCache — and returns its result; when the
guard grants a cache read, the store is consulted first instead. -/
theorem getCertAuthority_loadKeys_upstream_when_not_cached
    (store : ResourceStore CA) (upstream : Bool → Except Err CA) (id : CertAuthID) :
    getCertAuthority false store upstream id true =
      { result := upstream true, upstreamCalls := 1, viaFnCache := false } := rfl

/-- The admission filter of the store test: admit even numbers. -/
def evenFilter (i : Nat) : Bool := i % 2 == 0

/-- The `"characters"` index key of the store test:
`strconv.FormatUint(uint64(i), 16)`. -/
def hexKey (i : Nat) : String := String.mk (Nat.toDigits 16 i)

/-- The store of `TestResourceStore`: admission filter `i % 2 == 0`, indexes
`"numbers"` (decimal) and `"characters"` (hex), after `put(i)` for
`i = 0..99`. -/
def testResourceStore : ResourceStore Nat :=
  runOps ((List.range 100).map StoreOp.put)
    (newResourceStoreWithFilter (some evenFilter)
      [("numbers", fun i => toString i), ("characters", hexKey)])

set_option maxRecDepth 100000 in
/-- C3: on the store of `TestResourceStore`, a `get` for an unbound key does
return `NotFound` — but its message is the generic
`"no value for resource of type int"` of `resourceStore.get`, not the
key-and-index-naming message the repository's own test
(`require.ErrorIs` with `no value for key "1" in index "numbers"`) and the
spec demand. The point lookups around it behave as the test expects. -/
theorem resourceStore_get_message_divergence :
    ResourceStore.get "int" testResourceStore "numbers" "0" = .ok 0 ∧
    ResourceStore.get "int" testResourceStore "characters" "1c" = .ok 28 ∧
    ResourceStore.get "int" testResourceStore "numbers" "1" =
      .error (.notFound "no value for resource of type int") ∧
    ResourceStore.get "int" testResourceStore "numbers" "1" ≠
      .error (.notFound "no value for key \"1\" in index \"numbers\"") := by
  have h3 : ResourceStore.get "int" testResourceStore "numbers" "1" =
      .error (.notFound "no value for resource of type int") := rfl
  refine ⟨rfl, rfl, h3, ?_⟩
  rw [h3]
  decide

/-- A store whose admission filter rejects `1` and whose sole index binds
every value to the same key `"0"` — in particular `"0"` is `1`'s index key. -/
def constKeyStore : ResourceStore Nat :=
  newResourceStoreWithFilter (some (fun i => i == 2)) [("k", fun _ => "0")]

/-- C4 counterexample: after `put(1)` (rejected by the filter) and `put(2)`
(admitted), `get` on the rejected value's index key `"0"` returns the
admitted value `2` rather than `NotFound` — refuting "get on any of t's
index keys returns NotFound" for stores whose indexes are not injective. -/
theorem resourceStore_filtered_get_counterexample :
    (fun i : Nat => i == 2) 1 = false ∧
    ResourceStore.get "int" (runOps [StoreOp.put 1, StoreOp.put 2] constKeyStore) "k" "0" =
      .ok 2 :=
  ⟨rfl, rfl⟩

/-- C4 (amended): for every store built with admission filter `f` and every
`t` with `f t = false`, `put(t)` returns success leaving the store
unchanged, and after any sequence of put/delete/clear operations the store
never contains `t`: `iterate` never yields `t`, and `get` on any key — in
particular on `t`'s index keys — never returns `t` (it returns `NotFound`
unless a different, admitted value shares the key). -/
theorem resourceStore_filter_soundness (T : Type) (f : T → Bool)
    (indexes : List (String × (T → String))) (ops : List (StoreOp T)) (t : T)
    (ht : f t = false) :
    (∀ s : ResourceStore T, s.filter = some f → s.put t = (s, .ok ())) ∧
    (∀ name start stop,
      t ∉ (runOps ops (newResourceStoreWithFilter (some f) indexes)).iterate name start stop) ∧
    (∀ tname name key v,
      (runOps ops (newResourceStoreWithFilter (some f) indexes)).get tname name key = .ok v →
      v ≠ t) := by
  have hinv := admitted_runOps ops (s := newResourceStoreWithFilter (some f) indexes) rfl
    (admitted_new f indexes)
  refine ⟨?_, ?_, ?_⟩
  · intro s hs
    unfold ResourceStore.put
    rw [hs]
    simp [ht]
  · intro name start stop
    exact not_mem_iterate_filtered ht hinv.2 name start stop
  · intro tname name key v hv
    exact get_ne_filtered ht hinv.2 tname name key v hv

/-- Witness for C4 at the store test's shape: the filter rejects `1`, and
`1` is never yielded by iteration after it was put. -/
theorem resourceStore_filter_soundness_witness :
    evenFilter 1 = false ∧
    (1 : Nat) ∉ (runOps [StoreOp.put 1, StoreOp.put 2]
      (newResourceStoreWithFilter (some evenFilter)
        [("numbers", fun i => toString i)])).iterate "numbers" "" "" :=
  ⟨by decide,
   (resourceStore_filter_soundness Nat evenFilter [("numbers", fun i => toString i)]
      [StoreOp.put 1, StoreOp.put 2] 1 (by decide)).2.1 "numbers" "" ""⟩

/-- The CA `(user, root)` of the cert-authority scenario. -/
def caUserRoot : CA := { caType := "user", domain := "root", signingKeys := ["uk"] }

/-- The CA `(host, root)` of the cert-authority scenario. -/
def caHostRoot : CA := { caType := "host", domain := "root", signingKeys := ["hk"] }

/-- The CA `(saml, root)` of the cert-authority scenario. -/
def caSamlRoot : CA := { caType := "saml", domain := "root", signingKeys := ["sk"] }

/-- The watch filter admitting CA types `user` and `host`. -/
def userHostFilter : CAFilter := ["user", "host"]

/-- The upstream trust service of the scenario: one CA of each of the three
types, none for the remaining types. -/
def scenarioTrust : String → Bool → Except Err (List CA) := fun ty _ =>
  if ty == "user" then .ok [caUserRoot]
  else if ty == "host" then .ok [caHostRoot]
  else if ty == "saml" then .ok [caSamlRoot]
  else .ok []

/-- The cert-authority store after `fetch(cacheOK = true)` against the
scenario upstream and the apply of its snapshot. -/
def scenarioCAStore : ResourceStore CA :=
  match (collectionFetch false true
      (fun ls => caGetAll userHostFilter scenarioTrust (fun _ => false) ls) false).plan with
  | .ok p => (runApply (resourceOps CA) p (newCAStore userHostFilter)).1
  | .error _ => newCAStore userHostFilter

/-- C5: with the watch filter `{user, host}`, the upstream `getAll` already
drops the `saml` CA defensively (first conjunct), and after fetch and apply
the store answers `get("id", ...)` with the respective CA for `user/root`
and `host/root` and with `NotFound` for `saml/root`. In general, every CA
delivered by a `getAll` under a non-empty filter matches the filter, and a
CA rejected by the filter is never held by the store after any operation
sequence (store admission). -/
theorem certAuthority_collection_filtering :
    caGetAll userHostFilter scenarioTrust (fun _ => false) false =
      .ok [caUserRoot, caHostRoot] ∧
    scenarioCAStore.get "types.CertAuthority" "id" "user/root" = .ok caUserRoot ∧
    scenarioCAStore.get "types.CertAuthority" "id" "host/root" = .ok caHostRoot ∧
    scenarioCAStore.get "types.CertAuthority" "id" "saml/root" =
      .error (.notFound "no value for resource of type types.CertAuthority") ∧
    (∀ (trust : String → Bool → Except Err (List CA)) (newlyAdded : String → Bool)
      (ls : Bool) (f : CAFilter) (cas : List CA),
      caGetAll f trust newlyAdded ls = .ok cas → caFilterIsEmpty f = false →
      cas.all (caMatch f) = true) ∧
    (∀ (f : CAFilter) (ops : List (StoreOp CA)) (name start stop : String) (ca : CA),
      caMatch f ca = false → ca ∉ (runOps ops (newCAStore f)).iterate name start stop) := by
  refine ⟨rfl, rfl, rfl, rfl, ?_, ?_⟩
  · intro trust newlyAdded ls f cas h hne
    exact caGetAllAux_filtered f trust newlyAdded ls certAuthTypes cas h hne
  · intro f ops name start stop ca hca
    have hinv := admitted_runOps ops (s := newCAStore f) rfl
      (admitted_new (caMatch f) [("id", caIdKey)])
    exact not_mem_iterate_filtered hca hinv.2 name start stop

/-- Witness for C5: the scenario snapshot is entirely filter-matching, and
the `saml` CA is not in the store even after being put directly. -/
theorem certAuthority_collection_filtering_witness :
    ([caUserRoot, caHostRoot].all (caMatch userHostFilter) = true) ∧
    caSamlRoot ∉ (runOps [StoreOp.put caSamlRoot]
      (newCAStore userHostFilter)).iterate "id" "" "" :=
  ⟨certAuthority_collection_filtering.2.2.2.2.1 scenarioTrust (fun _ => false) false
      userHostFilter [caUserRoot, caHostRoot] rfl rfl,
   certAuthority_collection_filtering.2.2.2.2.2 userHostFilter [StoreOp.put caSamlRoot]
      "id" "" "" caSamlRoot (by decide)⟩

end TeleportCache
